import Mathlib

/-!
Verification of the forecast-to-text rendering engine of thesurf.in.

The definitions below are a shallow embedding of the Rust sources:
  * `src/lib/src/ui/view/base.rs`     — document model (Span, Style, Color, View)
  * `src/lib/src/ui/view/forecast.rs` — Graph, Day, Border, View assembly
  * `src/lib/src/ui/terminal.rs`      — ANSI terminal renderer
  * `src/lib/src/msw/forecast.rs`     — forecast record data model

Machine floats (`f32`) are embedded as exact rationals `ℚ`; `usize`
arithmetic is embedded as `ℕ` with Lean's truncated subtraction standing
for the (panicking/wrapping) Rust subtraction, and the places where that
matters carry explicit side conditions.  Strings are embedded as
`List Char`; Rust format-string padding counts characters, which is what
the padding helpers below do.  Output of the external `chrono` date
formatter is modelled as data fields carried by the timestamp value.
-/

/- ------------------------------------------------------------------ -/
/- Document model: src/lib/src/ui/view/base.rs                        -/
/- ------------------------------------------------------------------ -/

def LINE_VERT : List Char := ['│']

def LINE_HORIZONTAL : List Char := ['─']

def CORNER_TOP_LEFT : List Char := ['┌']

def CORNER_TOP_RIGHT : List Char := ['┐']

def CORNER_BTM_LEFT : List Char := ['└']

def CORNER_BTM_RIGHT : List Char := ['┘']

def TEE_LEFT : List Char := ['┤']

def TEE_RIGHT : List Char := ['├']

/-- The colors available for styling (base.rs `enum Color`). -/
inductive Color
  | Green
  | Blue
  | Red
deriving DecidableEq, Repr

/-- Style attributes of a span (base.rs `struct Style`). -/
structure Style where
  fg : Option Color
  bg : Option Color
  bold : Bool
deriving DecidableEq, Repr

/-- `Style::default()`: no styling. -/
def Style.default : Style := ⟨none, none, false⟩

/-- Span content: either text or an explicit line break (base.rs `enum Content`). -/
inductive Content
  | Text : List Char → Content
  | Newline : Content
deriving DecidableEq, Repr

/-- A contiguous piece of content with consistent styles (base.rs `struct Span`). -/
structure Span where
  content : Content
  style : Style
deriving DecidableEq, Repr

/-- `Span::new(text)`: a text span with default style. -/
def Span.new (t : List Char) : Span := ⟨Content.Text t, Style.default⟩

/-- `Span::newline()`: a line-break span with default style. -/
def Span.newline : Span := ⟨Content.Newline, Style.default⟩

/-- A text span whose style has the given foreground color set
(`span.style().fg(color)` applied to a fresh text span). -/
def Span.withFg (t : List Char) (c : Color) : Span :=
  ⟨Content.Text t, ⟨some c, none, false⟩⟩

/-- A view is the sequence of spans of the whole document (base.rs `struct View`). -/
structure View where
  spans : List Span
deriving DecidableEq, Repr

/-- base.rs `type Line = Vec<Span>`. -/
abbrev Line := List Span

/-- The number of character cells a span renders to (length of its text). -/
def Span.width (s : Span) : ℕ :=
  match s.content with
  | Content.Text t => t.length
  | Content.Newline => 0

/-- The number of character cells a line renders to once its spans are
concatenated. -/
def lineWidth (l : Line) : ℕ := (l.map Span.width).sum

/- ------------------------------------------------------------------ -/
/- Rust format-string padding semantics                               -/
/- ------------------------------------------------------------------ -/

/-- Rust `format!("{:>width$}", s)` (also with a fill char): right-align by
padding on the left; a string at least `width` long is unchanged. -/
def padAlignRight (fill : Char) (w : ℕ) (s : List Char) : List Char :=
  List.replicate (w - s.length) fill ++ s

/-- Rust `format!("{:width$}", s)`: strings left-align by default, padding
with spaces on the right. -/
def padAlignLeft (fill : Char) (w : ℕ) (s : List Char) : List Char :=
  s ++ List.replicate (w - s.length) fill

/-- Rust `format!("{:^width$}", s)` (also with a fill char): center, with
the excess padding on the right side. -/
def padAlignCenter (fill : Char) (w : ℕ) (s : List Char) : List Char :=
  List.replicate ((w - s.length) / 2) fill ++ s ++
    List.replicate ((w - s.length) - (w - s.length) / 2) fill

theorem padAlignRight_length (fill : Char) (w : ℕ) (s : List Char) :
    (padAlignRight fill w s).length = max w s.length := by
  simp [padAlignRight]; omega

theorem padAlignLeft_length (fill : Char) (w : ℕ) (s : List Char) :
    (padAlignLeft fill w s).length = max w s.length := by
  simp [padAlignLeft]; omega

theorem padAlignCenter_length (fill : Char) (w : ℕ) (s : List Char) :
    (padAlignCenter fill w s).length = max w s.length := by
  simp [padAlignCenter]; omega

/- ------------------------------------------------------------------ -/
/- Layout constants: src/lib/src/ui/view/forecast.rs                  -/
/- ------------------------------------------------------------------ -/

/-- Total width of the viewpoint output. -/
def VIEWPOINT_WIDTH : ℕ := 90

/-- Viewpoint width minus the border chars. -/
def INTERIOR_VIEWPOINT_WIDTH : ℕ := VIEWPOINT_WIDTH - 2

/-- `Graph::SWELL_GRAPH_HEIGHT`. -/
def SWELL_GRAPH_HEIGHT : ℕ := 10

/- ------------------------------------------------------------------ -/
/- Boundary glyph selection (Graph::draw_inner, forecast.rs:184-212)  -/
/- ------------------------------------------------------------------ -/

/-- Rust `usize::cmp`: three-way comparison on `ℕ`. -/
def cmpN (a b : ℕ) : Ordering :=
  if a < b then Ordering.lt else if b < a then Ordering.gt else Ordering.eq

/-- The match in `Graph::draw_inner` deciding the glyph for the one-column
boundary between adjacent bins, on the triple
`(height.cmp(&last_height), height.cmp(&y), last_height.cmp(&y))`,
arms in source order.  The first arm leaves the initialized
`Span::new(" ")` in place. -/
def boundaryMatch : Ordering → Ordering → Ordering → List Char
  | _, Ordering.gt, Ordering.gt => [' ']
  | _, Ordering.lt, Ordering.lt => ['.']
  | _, Ordering.gt, Ordering.lt => LINE_VERT
  | _, Ordering.lt, Ordering.gt => LINE_VERT
  | Ordering.eq, _, _ => LINE_HORIZONTAL
  | Ordering.gt, Ordering.eq, _ => CORNER_BTM_LEFT
  | Ordering.lt, Ordering.eq, _ => CORNER_TOP_LEFT
  | Ordering.gt, _, Ordering.eq => CORNER_TOP_RIGHT
  | Ordering.lt, _, Ordering.eq => CORNER_BTM_RIGHT

/-- The boundary glyph for current-bin glyph row `height`, previous-bin
glyph row `last_height`, and row `y`. -/
def boundaryGlyph (height last_height y : ℕ) : List Char :=
  boundaryMatch (cmpN height last_height) (cmpN height y) (cmpN last_height y)

/-- The boundary decision table exactly as the spec words it: an ordered
table of conditions on the pair of adjacent bin heights `h` (right bin),
`h_prev` (left bin) and the row `y`; the first matching row decides the
glyph.  The final catch-all is unreachable. -/
def specGlyphTable (h h_prev y : ℕ) : List Char :=
  if h > y ∧ h_prev > y then [' ']
  else if h < y ∧ h_prev < y then ['.']
  else if (h > y ∧ h_prev < y) ∨ (h < y ∧ h_prev > y) then LINE_VERT
  else if h = h_prev then LINE_HORIZONTAL
  else if h = y ∧ h > h_prev then CORNER_BTM_LEFT
  else if h = y ∧ h < h_prev then CORNER_TOP_LEFT
  else if h_prev = y ∧ h > h_prev then CORNER_TOP_RIGHT
  else if h_prev = y ∧ h < h_prev then CORNER_BTM_RIGHT
  else []

/-- Trichotomy packaged with the value of `cmpN`. -/
theorem cmpN_cases (a b : ℕ) :
    (a < b ∧ cmpN a b = Ordering.lt) ∨ (a = b ∧ cmpN a b = Ordering.eq) ∨
      (b < a ∧ cmpN a b = Ordering.gt) := by
  rcases Nat.lt_trichotomy a b with h | h | h
  · exact Or.inl ⟨h, by simp [cmpN, h]⟩
  · refine Or.inr (Or.inl ⟨h, ?_⟩)
    simp [cmpN, h]
  · refine Or.inr (Or.inr ⟨h, ?_⟩)
    have h1 : ¬ a < b := Nat.lt_asymm h
    simp [cmpN, h, h1]

theorem cmpN_eq_lt {a b : ℕ} : cmpN a b = Ordering.lt ↔ a < b := by
  rcases cmpN_cases a b with ⟨f, e⟩ | ⟨f, e⟩ | ⟨f, e⟩ <;> rw [e] <;>
    simp <;> omega

theorem cmpN_eq_gt {a b : ℕ} : cmpN a b = Ordering.gt ↔ b < a := by
  rcases cmpN_cases a b with ⟨f, e⟩ | ⟨f, e⟩ | ⟨f, e⟩ <;> rw [e] <;>
    simp <;> omega

theorem cmpN_eq_eq {a b : ℕ} : cmpN a b = Ordering.eq ↔ a = b := by
  rcases cmpN_cases a b with ⟨f, e⟩ | ⟨f, e⟩ | ⟨f, e⟩ <;> rw [e] <;>
    simp <;> omega

/-- C2: for every pair of adjacent bins with glyph rows `h` (right) and
`h_prev` (left), and every row `y`, the boundary glyph chosen by
`Graph::draw_inner` is exactly the ordered decision table of the spec over
the triple of comparisons. -/
theorem boundary_glyph_matches_spec_table (h h_prev y : ℕ) :
    boundaryGlyph h h_prev y = specGlyphTable h h_prev y := by
  have a1 : (y < h) ↔ (cmpN h y = Ordering.gt) := cmpN_eq_gt.symm
  have a2 : (h < y) ↔ (cmpN h y = Ordering.lt) := cmpN_eq_lt.symm
  have a3 : (h = y) ↔ (cmpN h y = Ordering.eq) := cmpN_eq_eq.symm
  have a4 : (y < h_prev) ↔ (cmpN h_prev y = Ordering.gt) := cmpN_eq_gt.symm
  have a5 : (h_prev < y) ↔ (cmpN h_prev y = Ordering.lt) := cmpN_eq_lt.symm
  have a6 : (h_prev = y) ↔ (cmpN h_prev y = Ordering.eq) := cmpN_eq_eq.symm
  have a7 : (h_prev < h) ↔ (cmpN h h_prev = Ordering.gt) := cmpN_eq_gt.symm
  have a8 : (h < h_prev) ↔ (cmpN h h_prev = Ordering.lt) := cmpN_eq_lt.symm
  have a9 : (h = h_prev) ↔ (cmpN h h_prev = Ordering.eq) := cmpN_eq_eq.symm
  simp only [specGlyphTable, gt_iff_lt, a1, a2, a3, a4, a5, a6, a7, a8, a9]
  simp only [boundaryGlyph]
  generalize cmpN h h_prev = a
  generalize cmpN h y = b
  generalize cmpN h_prev y = c
  cases a <;> cases b <;> cases c <;> rfl

/-- The horizontal mirror of a boundary glyph: left corners swap with the
corresponding right corners, every other glyph is its own mirror. -/
def mirrorGlyph (g : List Char) : List Char :=
  if g = CORNER_BTM_LEFT then CORNER_BTM_RIGHT
  else if g = CORNER_BTM_RIGHT then CORNER_BTM_LEFT
  else if g = CORNER_TOP_LEFT then CORNER_TOP_RIGHT
  else if g = CORNER_TOP_RIGHT then CORNER_TOP_LEFT
  else g

/-- The opposite of an ordering, as produced by swapping the compared
values. -/
def oppOrd : Ordering → Ordering
  | Ordering.lt => Ordering.gt
  | Ordering.eq => Ordering.eq
  | Ordering.gt => Ordering.lt

theorem cmpN_swap (a b : ℕ) : cmpN b a = oppOrd (cmpN a b) := by
  rcases cmpN_cases a b with ⟨f, e⟩ | ⟨f, e⟩ | ⟨f, e⟩ <;>
    rcases cmpN_cases b a with ⟨g, e2⟩ | ⟨g, e2⟩ | ⟨g, e2⟩ <;>
      simp only [e, e2, oppOrd] <;> omega

/-- C7: boundary-glyph selection is symmetric under swapping the two
adjacent bins: the non-corner glyphs are invariant and each corner maps to
its horizontally mirrored corner; moreover at the row equal to the
right-hand bin's glyph row, turning a rising step into a falling one turns
the top-left corner into the bottom-left corner. -/
theorem boundary_glyph_swap_symmetry :
    (∀ h h_prev y : ℕ,
        boundaryGlyph h_prev h y = mirrorGlyph (boundaryGlyph h h_prev y)) ∧
      (∀ h h_prev : ℕ, h < h_prev →
        boundaryGlyph h h_prev h = CORNER_TOP_LEFT ∧
          boundaryGlyph h_prev h h_prev = CORNER_BTM_LEFT) := by
  constructor
  · intro h h_prev y
    have hswap : cmpN h_prev h = oppOrd (cmpN h h_prev) := cmpN_swap h h_prev
    have hreal : cmpN h y = Ordering.eq → cmpN h_prev y = Ordering.eq →
        cmpN h h_prev = Ordering.eq := by
      intro q1 q2
      have e1 := cmpN_eq_eq.mp q1
      have e2 := cmpN_eq_eq.mp q2
      exact cmpN_eq_eq.mpr (by omega)
    simp only [boundaryGlyph, hswap]
    generalize cmpN h h_prev = a at hreal
    generalize cmpN h y = b at hreal
    generalize cmpN h_prev y = c at hreal
    cases a <;> cases b <;> cases c <;>
      first
        | rfl
        | exact absurd (hreal rfl rfl) (by decide)
  · intro h h_prev hlt
    have e1 : cmpN h h_prev = Ordering.lt := cmpN_eq_lt.mpr hlt
    have e1' : cmpN h_prev h = Ordering.gt := cmpN_eq_gt.mpr hlt
    have e2 : cmpN h h = Ordering.eq := cmpN_eq_eq.mpr rfl
    have e3 : cmpN h_prev h_prev = Ordering.eq := cmpN_eq_eq.mpr rfl
    constructor
    · simp only [boundaryGlyph, e1, e2, e1']
      rfl
    · simp only [boundaryGlyph, e1', e3, e1]
      rfl

/-- Witness for the conditional part of the swap-symmetry theorem at
concrete glyph rows 0 and 1. -/
theorem boundary_glyph_swap_symmetry_witness :
    boundaryGlyph 0 1 0 = CORNER_TOP_LEFT ∧ boundaryGlyph 1 0 1 = CORNER_BTM_LEFT :=
  boundary_glyph_swap_symmetry.2 0 1 (by decide)

/- ------------------------------------------------------------------ -/
/- Forecast data model: src/lib/src/msw/forecast.rs                   -/
/- ------------------------------------------------------------------ -/

/-- chrono `NaiveDateTime`, modelled as the underlying ordered tick value
together with the outputs of the chrono format calls the renderer makes;
formatting by the external chrono crate is carried as uninterpreted data. -/
structure Timestamp where
  t : ℤ
  hour : ℕ
  dateFmt : List Char
  timeFmt : List Char
deriving DecidableEq, Repr

/-- forecast.rs `enum UnitLength`. -/
inductive UnitLength
  | Feet
  | Meters
deriving DecidableEq, Repr

/-- `Display for UnitLength`. -/
def UnitLength.display : UnitLength → List Char
  | UnitLength.Feet => "ft".data
  | UnitLength.Meters => "m".data

/-- forecast.rs `enum UnitSpeed`. -/
inductive UnitSpeed
  | Mph
  | Kph
deriving DecidableEq, Repr

/-- `Display for UnitSpeed`. -/
def UnitSpeed.display : UnitSpeed → List Char
  | UnitSpeed.Mph => "mph".data
  | UnitSpeed.Kph => "kph".data

/-- forecast.rs `enum UnitTemperature`. -/
inductive UnitTemperature
  | C
  | F
deriving DecidableEq, Repr

/-- `Display for UnitTemperature`. -/
def UnitTemperature.display : UnitTemperature → List Char
  | UnitTemperature.C => "°C".data
  | UnitTemperature.F => "°F".data

/-- forecast.rs `enum CompassDirection`. -/
inductive CompassDirection
  | N | NNE | NE | ENE | E | ESE | SE | SSE | S | SSW | SW | WSW | W | WNW | NW | NNW
deriving DecidableEq, Repr

/-- forecast.rs `struct SwellComponent`. -/
structure SwellComponent where
  height : ℚ
  period : ℕ
  direction : ℚ
  compass_direction : CompassDirection
deriving DecidableEq, Repr

/-- forecast.rs `struct SwellComponents`. -/
structure SwellComponents where
  combined : Option SwellComponent
  primary : Option SwellComponent
  secondary : Option SwellComponent
  tertiary : Option SwellComponent
deriving DecidableEq, Repr

/-- forecast.rs `struct Swell`. -/
structure Swell where
  min_breaking_height : ℚ
  abs_min_breaking_height : ℚ
  max_breaking_height : ℚ
  abs_max_breaking_height : ℚ
  unit : UnitLength
  components : SwellComponents
deriving DecidableEq, Repr

/-- forecast.rs `struct Wind`. -/
structure Wind where
  speed : ℕ
  direction : ℚ
  compass_direction : CompassDirection
  chill : ℤ
  gusts : ℕ
  unit : UnitSpeed
deriving DecidableEq, Repr

/-- forecast.rs `struct Condition`. -/
structure Condition where
  pressure : ℕ
  temperature : ℤ
  unit_pressure : List Char
  unit_temperature : UnitTemperature
deriving DecidableEq, Repr

/-- forecast.rs `struct Forecast` (the `charts` URLs are unused by the
renderer and omitted). -/
structure Forecast where
  timestamp : ℤ
  local_timestamp : Timestamp
  faded_rating : ℕ
  solid_rating : ℕ
  swell : Swell
  wind : Wind
  condition : Condition
deriving DecidableEq, Repr

/- ------------------------------------------------------------------ -/
/- Number display models                                              -/
/- ------------------------------------------------------------------ -/

/-- Rust `Display` of an unsigned integer: decimal digits. -/
def natRepr (n : ℕ) : List Char := (Nat.repr n).data

/-- Rust `Display` of a signed integer. -/
def intRepr (n : ℤ) : List Char :=
  if n < 0 then '-' :: natRepr n.natAbs else natRepr n.natAbs

/-- Rust `f32::round` followed by `as usize`: round half away from zero,
with the cast saturating at zero for negative results. -/
def rustRound (q : ℚ) : ℤ :=
  if 0 ≤ q then ⌊q + 1/2⌋ else -⌊-q + 1/2⌋

/-- Fractional decimal digits of a rational in `[0,1)`, up to `fuel` many.
Used only by the display model of the external float formatter. -/
def decimalDigits : ℕ → ℚ → List Char
  | 0, _ => []
  | fuel + 1, q =>
    if q = 0 then []
    else Nat.digitChar (⌊q * 10⌋).toNat :: decimalDigits fuel (q * 10 - ⌊q * 10⌋)

/-- Model of Rust `Display for f32` (shortest decimal), adequate for the
short decimal values the layout feeds it; only its output length enters
any theorem hypothesis. -/
def fmtF32 (q : ℚ) : List Char :=
  (if q < 0 then ['-'] else []) ++ natRepr (⌊|q|⌋).toNat ++
    (if |q| - ⌊|q|⌋ = 0 then [] else '.' :: decimalDigits 9 (|q| - ⌊|q|⌋))

/-- Model of Rust `format!("{:.1}", x)` on `f32`: one fixed decimal. -/
def fmtDot1 (q : ℚ) : List Char :=
  let m := rustRound (q * 10)
  (if m < 0 then ['-'] else []) ++ natRepr (m.natAbs / 10) ++
    '.' :: natRepr (m.natAbs % 10)

/-- Model of Rust `format!("{:.0}", x)` on `f32`: rounded, no decimals. -/
def fmtDot0 (q : ℚ) : List Char := intRepr (rustRound q)

/- ------------------------------------------------------------------ -/
/- Outcome of a Rust call that may panic                              -/
/- ------------------------------------------------------------------ -/

/-- Result of running a Rust function that can panic: either a value or a
panic (an `assert!` failure).  The code under verification has no error
type at all, so there is no error constructor to model. -/
inductive Outcome (α : Type) where
  | ok (val : α)
  | panic
deriving DecidableEq, Repr

/- ------------------------------------------------------------------ -/
/- Graph: forecast.rs lines 121-298                                   -/
/- ------------------------------------------------------------------ -/

/-- forecast.rs `struct Graph`. -/
structure Graph where
  forecast : List Forecast
  min_swell_height : ℚ
  max_swell_height : ℚ
  midnight : Forecast
deriving DecidableEq, Repr

/-- The buffer added to the max breaking height, per unit. -/
def Graph.heightBuffer : UnitLength → ℚ
  | UnitLength.Feet => 1
  | UnitLength.Meters => 1/2

/-- The `fold(f32::NEG_INFINITY, max)` over a list of heights: `none`
plays negative infinity, which survives only on the empty list. -/
def negInfMax (l : List ℚ) : Option ℚ :=
  l.foldl
    (fun a b =>
      match a with
      | none => some b
      | some m => some (max m b))
    none

/-- `Graph::new` (forecast.rs:232-251): asserts the slice is non-empty
(panic on empty), then records min height 0, max height = max of the
records' rounded `max_breaking_height` plus the unit buffer, and the first
record as `midnight`. -/
def Graph.new (forecast : List Forecast) : Outcome Graph :=
  match forecast with
  | [] => Outcome.panic
  | f :: fs =>
    let buffer := Graph.heightBuffer f.swell.unit
    let max_swell_height :=
      ((negInfMax ((f :: fs).map (fun fc => fc.swell.max_breaking_height))).getD 0)
        + buffer
    Outcome.ok ⟨f :: fs, 0, max_swell_height, f⟩

/-- `Graph::color` (forecast.rs:291-297). -/
def Graph.color (fc : Forecast) : Color :=
  match fc.solid_rating, fc.faded_rating with
  | 0, _ => Color.Red
  | _, 0 => Color.Green
  | _, _ => Color.Blue

/-- `Graph::scale` (forecast.rs:281-286): linear interpolation of a height
into graph rows, rounded to nearest. -/
def Graph.scale (g : Graph) (height : ℚ) : ℕ :=
  let swell_range := g.max_swell_height - g.min_swell_height
  let proportion_of_range := (height - g.min_swell_height) / swell_range
  let scaled_to_graph := proportion_of_range * (SWELL_GRAPH_HEIGHT : ℚ)
  (rustRound scaled_to_graph).toNat

theorem rustRound_mono {q1 q2 : ℚ} (h : q1 ≤ q2) :
    rustRound q1 ≤ rustRound q2 := by
  unfold rustRound
  split_ifs with h1 h2 h2
  · exact Int.floor_le_floor (by linarith)
  · exact absurd (h1.trans h) h2
  · have l1 : (0:ℤ) ≤ ⌊q2 + 1/2⌋ := Int.floor_nonneg.mpr (by linarith)
    have l2 : (0:ℤ) ≤ ⌊-q1 + 1/2⌋ := Int.floor_nonneg.mpr (by linarith)
    omega
  · have l3 : ⌊-q2 + 1/2⌋ ≤ ⌊-q1 + 1/2⌋ := Int.floor_le_floor (by linarith)
    omega

/-- C6: for a fixed graph with `min_swell_height = 0` and positive
`max_swell_height`, `Graph::scale` is monotone. -/
theorem graph_scale_monotone (g : Graph) (hmin : g.min_swell_height = 0)
    (hmax : 0 < g.max_swell_height) :
    ∀ h1 h2 : ℚ, h1 < h2 → g.scale h1 ≤ g.scale h2 := by
  intro h1 h2 hlt
  unfold Graph.scale
  have hle : (h1 - g.min_swell_height) / (g.max_swell_height - g.min_swell_height)
        * (SWELL_GRAPH_HEIGHT : ℚ)
      ≤ (h2 - g.min_swell_height) / (g.max_swell_height - g.min_swell_height)
        * (SWELL_GRAPH_HEIGHT : ℚ) := by
    have hr : 0 < g.max_swell_height - g.min_swell_height := by
      rw [hmin]; linarith
    have hdiv : (h1 - g.min_swell_height) / (g.max_swell_height - g.min_swell_height)
        ≤ (h2 - g.min_swell_height) / (g.max_swell_height - g.min_swell_height) :=
      div_le_div_of_nonneg_right (by linarith) hr.le
    exact mul_le_mul_of_nonneg_right hdiv (Nat.cast_nonneg _)
  exact Int.toNat_le_toNat (rustRound_mono hle)

/-- C6 witness data: a one-record forecast. -/
def sampleForecast : Forecast :=
  { timestamp := 1645678800
    local_timestamp := ⟨1645660800, 0, "Thu Feb 24".data, "12am".data⟩
    faded_rating := 1
    solid_rating := 1
    swell :=
      { min_breaking_height := 2
        abs_min_breaking_height := 2
        max_breaking_height := 3
        abs_max_breaking_height := 3
        unit := UnitLength.Feet
        components := ⟨none, none, none, none⟩ }
    wind :=
      { speed := 7
        direction := 335
        compass_direction := CompassDirection.SSE
        chill := 21
        gusts := 12
        unit := UnitSpeed.Mph }
    condition :=
      { pressure := 1023
        temperature := 20
        unit_pressure := "mb".data
        unit_temperature := UnitTemperature.C } }

/-- The graph `Graph::new` builds from the one-record sample: min height 0,
max height 3 + 1 (feet buffer). -/
def sampleGraph : Graph := ⟨[sampleForecast], 0, 4, sampleForecast⟩

/-- Witness: monotonicity of `Graph::scale` on the sample graph at the
concrete heights 1 and 2. -/
theorem graph_scale_monotone_witness :
    sampleGraph.scale 1 ≤ sampleGraph.scale 2 :=
  graph_scale_monotone sampleGraph rfl (by norm_num [sampleGraph]) 1 2 (by norm_num)

theorem rustRound_graph_height :
    rustRound ((SWELL_GRAPH_HEIGHT : ℕ) : ℚ) = (SWELL_GRAPH_HEIGHT : ℤ) := by
  have h10 : ((SWELL_GRAPH_HEIGHT : ℕ) : ℚ) = 10 := by norm_num [SWELL_GRAPH_HEIGHT]
  rw [rustRound, if_pos (by rw [h10]; norm_num), h10]
  rw [show ((SWELL_GRAPH_HEIGHT : ℕ) : ℤ) = 10 by norm_num [SWELL_GRAPH_HEIGHT]]
  rw [Int.floor_eq_iff]
  norm_num

/-- C10: when every record's scaled height stays within the graph height,
the glyph-row subtraction `SWELL_GRAPH_HEIGHT - scale(h)` in
`Graph::draw_inner` is exact (no underflow); and the precondition does
hold whenever the height is between 0 and `max_swell_height`, which is
how `Graph::new` sets the graph up. -/
theorem graph_row_subtraction_safe (g : Graph) :
    ((∀ fc ∈ g.forecast,
        g.scale fc.swell.abs_max_breaking_height ≤ SWELL_GRAPH_HEIGHT) →
      ∀ fc ∈ g.forecast,
        SWELL_GRAPH_HEIGHT - g.scale fc.swell.abs_max_breaking_height +
            g.scale fc.swell.abs_max_breaking_height = SWELL_GRAPH_HEIGHT)
    ∧ (g.min_swell_height = 0 → 0 < g.max_swell_height →
        ∀ q : ℚ, 0 ≤ q → q ≤ g.max_swell_height →
          g.scale q ≤ SWELL_GRAPH_HEIGHT) := by
  constructor
  · intro hall fc hfc
    have := hall fc hfc
    omega
  · intro hmin hmax q hq hle
    unfold Graph.scale
    have hdivle :
        (q - g.min_swell_height) / (g.max_swell_height - g.min_swell_height) ≤ 1 := by
      rw [hmin, sub_zero, sub_zero, div_le_one hmax]
      exact hle
    have hmul :
        (q - g.min_swell_height) / (g.max_swell_height - g.min_swell_height)
            * ((SWELL_GRAPH_HEIGHT : ℕ) : ℚ)
          ≤ ((SWELL_GRAPH_HEIGHT : ℕ) : ℚ) :=
      mul_le_of_le_one_left (Nat.cast_nonneg _) hdivle
    have hr := rustRound_mono hmul
    rw [rustRound_graph_height] at hr
    exact Int.toNat_le.mpr hr

/-- Witness: the sample graph satisfies the scale bound at its record's
height, so the row subtraction is exact there. -/
theorem graph_row_subtraction_safe_witness :
    SWELL_GRAPH_HEIGHT -
        sampleGraph.scale sampleForecast.swell.abs_max_breaking_height +
        sampleGraph.scale sampleForecast.swell.abs_max_breaking_height =
      SWELL_GRAPH_HEIGHT :=
  (graph_row_subtraction_safe sampleGraph).1
    (by
      intro fc hfc
      have hs : fc = sampleForecast := by simpa [sampleGraph] using hfc
      subst hs
      exact (graph_row_subtraction_safe sampleGraph).2 rfl
        (by norm_num [sampleGraph]) _ (by norm_num [sampleForecast])
        (by norm_num [sampleForecast, sampleGraph]))
    sampleForecast (by simp [sampleGraph])

/- ------------------------------------------------------------------ -/
/- Graph legend column (forecast.rs:255-279)                          -/
/- ------------------------------------------------------------------ -/

/-- One legend label of `Graph::legend_column`:
`format!(" {:>width$} {} ", num_str, unit_str, width = w)`. -/
def legendEntry (numStr unitStr : List Char) (w : ℕ) : List Char :=
  ' ' :: padAlignRight ' ' w numStr ++ ' ' :: unitStr ++ [' ']

/-- `Graph::legend_column`, with the `format!("{}")` renderings of the two
f32 heights and of the unit passed in by the caller.  The `assert_eq!` on
the two label lengths is established separately as a theorem. -/
def legendColumn (maxStr minStr unitStr : List Char) : List Span × ℕ :=
  let legend_num_str_len := max minStr.length maxStr.length
  let legend_max := legendEntry maxStr unitStr legend_num_str_len
  let legend_min := legendEntry minStr unitStr legend_num_str_len
  let legend_width := legend_max.length
  let legend_bin :=
    ((List.replicate SWELL_GRAPH_HEIGHT
          (Span.new (List.replicate legend_width ' '))).set 0
        (Span.new legend_max)).set (SWELL_GRAPH_HEIGHT - 1) (Span.new legend_min)
  (legend_bin, legend_width)

/- ------------------------------------------------------------------ -/
/- Graph drawing (forecast.rs:150-225)                                -/
/- ------------------------------------------------------------------ -/

/-- The glyph row of a record:
`SWELL_GRAPH_HEIGHT - self.scale(fc.swell.abs_max_breaking_height)`. -/
def Graph.glyphRow (g : Graph) (fc : Forecast) : ℕ :=
  SWELL_GRAPH_HEIGHT - g.scale fc.swell.abs_max_breaking_height

/-- The glyph rows of all bins, in order. -/
def Graph.heights (g : Graph) : List ℕ := g.forecast.map g.glyphRow

/-- The rating colors of all bins, in order. -/
def Graph.colors (g : Graph) : List Color := g.forecast.map Graph.color

/-- One bin cell at row `y` for a bin of glyph row `height`: a horizontal
rule on the wave line, dots below it, the initialized blank above it; the
bin's color is applied in every case. -/
def binSpan (height y bin_width : ℕ) (c : Color) : Span :=
  match cmpN height y with
  | Ordering.eq => Span.withFg (padAlignCenter '─' bin_width []) c
  | Ordering.lt => Span.withFg (padAlignCenter '.' bin_width []) c
  | Ordering.gt => Span.withFg (padAlignLeft ' ' bin_width []) c

/-- Row `y` of all bin cells. -/
def binRow (hs : List ℕ) (cs : List Color) (bin_width y : ℕ) : List Span :=
  List.zipWith (fun h c => binSpan h y bin_width c) hs cs

/-- The boundary span between the previous bin (glyph row `last`) and the
current bin (glyph row `h`), styled with the current bin's color. -/
def boundarySpan (h last y : ℕ) (c : Color) : Span :=
  Span.withFg (boundaryGlyph h last y) c

/-- Row `y` of the boundary spans: one per adjacent pair of bins, each
carrying the right-hand bin's glyph and color. -/
def boundaryRow : List ℕ → List Color → ℕ → List Span
  | h1 :: h2 :: hs, _ :: c2 :: cs, y =>
    boundarySpan h2 h1 y c2 :: boundaryRow (h2 :: hs) (c2 :: cs) y
  | _, _, _ => []

/-- `itertools::interleave`: alternate elements from the two lists,
continuing with the remainder of the longer one. -/
def interleave : List Span → List Span → List Span
  | [], ys => ys
  | x :: xs, ys => x :: interleave ys xs
termination_by xs ys => xs.length + ys.length
decreasing_by simp; omega

/-- `Graph::draw_inner` (forecast.rs:150-225): each of the
`SWELL_GRAPH_HEIGHT` interior lines is the legend span, the interleaving
of bin cells with boundary spans, and the right-margin span. -/
def Graph.draw_inner (g : Graph) : List Line :=
  let lc := legendColumn (fmtF32 g.max_swell_height) (fmtF32 g.min_swell_height)
    g.midnight.swell.unit.display
  let legend_width := lc.2
  let num_bins := g.forecast.length
  let num_bin_boundaries := num_bins - 1
  let bin_width :=
    (INTERIOR_VIEWPOINT_WIDTH - legend_width - num_bin_boundaries) / num_bins
  let used_space := legend_width + num_bin_boundaries + num_bins * bin_width
  let right_margin := INTERIOR_VIEWPOINT_WIDTH - used_space
  (List.range SWELL_GRAPH_HEIGHT).map fun y =>
    lc.1.getD y (Span.new (List.replicate legend_width ' ')) ::
      interleave (binRow g.heights g.colors bin_width y)
        (boundaryRow g.heights g.colors y) ++
      [Span.new (padAlignLeft ' ' right_margin [])]

/- ------------------------------------------------------------------ -/
/- Day (forecast.rs:300-544)                                          -/
/- ------------------------------------------------------------------ -/

/-- forecast.rs `struct Day`. -/
structure Day where
  forecast : List Forecast
  bin_width : ℕ
  right_margin : ℕ
deriving DecidableEq, Repr

/-- `Day::LEGEND_WIDTH`. -/
def Day.LEGEND_WIDTH : ℕ := 11

/-- `Day::BOUNDARY_WIDTH`. -/
def Day.BOUNDARY_WIDTH : ℕ := 1

/-- The width computation in the body of `Day::new` (total; `Day::new`
itself first asserts non-emptiness). -/
def Day.make (forecast : List Forecast) : Day :=
  let num_forecasts := forecast.length
  let num_boundaries := num_forecasts
  let bin_width :=
    (INTERIOR_VIEWPOINT_WIDTH - num_boundaries * Day.BOUNDARY_WIDTH -
        Day.LEGEND_WIDTH) / num_forecasts
  let used_space :=
    Day.LEGEND_WIDTH + num_boundaries * Day.BOUNDARY_WIDTH +
      num_forecasts * bin_width
  let right_margin := INTERIOR_VIEWPOINT_WIDTH - used_space
  ⟨forecast, bin_width, right_margin⟩

/-- `Day::new` (forecast.rs:353-372): asserts the slice is non-empty
(panic on empty), then computes the widths. -/
def Day.new (forecast : List Forecast) : Outcome Day :=
  match forecast with
  | [] => Outcome.panic
  | f :: fs => Outcome.ok (Day.make (f :: fs))

/-- `compass_to_arrow` (forecast.rs:546-558). -/
def compass_to_arrow (dir : CompassDirection) : List Char :=
  match dir with
  | CompassDirection.N => "↓".data
  | CompassDirection.NNE | CompassDirection.NE | CompassDirection.ENE => "↙".data
  | CompassDirection.E => "←".data
  | CompassDirection.ESE | CompassDirection.SE | CompassDirection.SSE => "↖".data
  | CompassDirection.S => "↑".data
  | CompassDirection.SSW | CompassDirection.SW | CompassDirection.WSW => "↗".data
  | CompassDirection.W => "→".data
  | CompassDirection.WNW | CompassDirection.NW | CompassDirection.NNW => "↘".data

/-- `format!("{height:.1} {unit}")` for a swell component. -/
def swellHeightStr (c : SwellComponent) (u : UnitLength) : List Char :=
  fmtDot1 c.height ++ ' ' :: u.display

/-- `format!("{period}s")` for a swell component. -/
def swellPeriodStr (c : SwellComponent) : List Char :=
  natRepr c.period ++ ['s']

/-- `format!("{arrow} {deg:.0}°")` for a direction. -/
def arrowDegStr (arrow : List Char) (deg : ℚ) : List Char :=
  arrow ++ ' ' :: fmtDot0 deg ++ ['°']

/-- `format!("{speed} {unit}")` for the wind. -/
def windSpeedStr (w : Wind) : List Char :=
  natRepr w.speed ++ ' ' :: w.unit.display

/-- `format!("{temp} {unit}")` for the air temperature. -/
def tempStr (c : Condition) : List Char :=
  intRepr c.temperature ++ ' ' :: c.unit_temperature.display

/-- `Day::boundary`: the one-column span between columns. -/
def Day.boundary (_d : Day) : Span :=
  Span.new (padAlignCenter ' ' Day.BOUNDARY_WIDTH [])

/-- The right-margin span `span!("{:width$}", "", width = right_margin)`. -/
def Day.marginSpan (d : Day) : Span :=
  Span.new (padAlignLeft ' ' d.right_margin [])

/-- A content cell centered in the bin width. -/
def Day.cell (d : Day) (s : List Char) : Span :=
  Span.new (padAlignCenter ' ' d.bin_width s)

/-- `Day::is_primary_present`. -/
def Day.is_primary_present (d : Day) : Bool :=
  d.forecast.any fun fc => fc.swell.components.primary.isSome

/-- `Day::is_secondary_present`. -/
def Day.is_secondary_present (d : Day) : Bool :=
  d.forecast.any fun fc => fc.swell.components.secondary.isSome

/-- `Day::time` (forecast.rs:374-395). -/
def Day.time (d : Day) : List Line :=
  [Span.new (padAlignCenter ' ' Day.LEGEND_WIDTH "Time".data) ::
      (d.forecast.flatMap fun fc =>
        [d.boundary, d.cell fc.local_timestamp.timeFmt]) ++
      [d.marginSpan]]

/-- The height cell of a swell row group. -/
def Day.swellCellH (d : Day) (component : SwellComponents → Option SwellComponent)
    (fc : Forecast) : Span :=
  match component fc.swell.components with
  | some c => d.cell (swellHeightStr c fc.swell.unit)
  | none => d.cell []

/-- The period cell of a swell row group. -/
def Day.swellCellP (d : Day) (component : SwellComponents → Option SwellComponent)
    (fc : Forecast) : Span :=
  match component fc.swell.components with
  | some c => d.cell (swellPeriodStr c)
  | none => d.cell []

/-- The direction cell of a swell row group. -/
def Day.swellCellD (d : Day) (component : SwellComponents → Option SwellComponent)
    (fc : Forecast) : Span :=
  match component fc.swell.components with
  | some c => d.cell (arrowDegStr (compass_to_arrow c.compass_direction) c.direction)
  | none => d.cell []

/-- `Day::swell` (forecast.rs:413-465): three rows (height, period,
direction); absent components render as empty cells. -/
def Day.swellGroup (d : Day) (legend : List Char)
    (component : SwellComponents → Option SwellComponent) : List Line :=
  [Span.new (padAlignCenter ' ' Day.LEGEND_WIDTH []) ::
      (d.forecast.flatMap fun fc => [d.boundary, d.swellCellH component fc]) ++
      [d.marginSpan],
    Span.new (padAlignCenter ' ' Day.LEGEND_WIDTH legend) ::
      (d.forecast.flatMap fun fc => [d.boundary, d.swellCellP component fc]) ++
      [d.marginSpan],
    Span.new (padAlignCenter ' ' Day.LEGEND_WIDTH "Swell".data) ::
      (d.forecast.flatMap fun fc => [d.boundary, d.swellCellD component fc]) ++
      [d.marginSpan]]

/-- `Day::primary_swell`. -/
def Day.primary_swell (d : Day) : List Line :=
  if d.is_primary_present then d.swellGroup "Primary".data (fun sw => sw.primary)
  else []

/-- `Day::secondary_swell`. -/
def Day.secondary_swell (d : Day) : List Line :=
  if d.is_secondary_present then d.swellGroup "Secondary".data (fun sw => sw.secondary)
  else []

/-- `Day::wind` (forecast.rs:467-497): speed row and direction row. -/
def Day.wind (d : Day) : List Line :=
  [Span.new (padAlignCenter ' ' Day.LEGEND_WIDTH " ".data) ::
      (d.forecast.flatMap fun fc => [d.boundary, d.cell (windSpeedStr fc.wind)]) ++
      [d.marginSpan],
    Span.new (padAlignCenter ' ' Day.LEGEND_WIDTH " Wind".data) ::
      (d.forecast.flatMap fun fc =>
        [d.boundary,
          d.cell (arrowDegStr (compass_to_arrow fc.wind.compass_direction)
            fc.wind.direction)]) ++
      [d.marginSpan]]

/-- `Day::weather` (forecast.rs:499-521): the air-temperature row. -/
def Day.weather (d : Day) : List Line :=
  [Span.new (padAlignCenter ' ' Day.LEGEND_WIDTH "Air".data) ::
      (d.forecast.flatMap fun fc => [d.boundary, d.cell (tempStr fc.condition)]) ++
      [d.marginSpan]]

/-- The blank separator line of `Day::draw_inner`. -/
def Day.skipLine : Line :=
  [Span.new (padAlignCenter ' ' INTERIOR_VIEWPOINT_WIDTH [])]

/-- `Day::draw_inner` (forecast.rs:328-344). -/
def Day.draw_inner (d : Day) : List Line :=
  d.time ++ [Day.skipLine] ++ d.primary_swell ++ [Day.skipLine] ++
    (if d.is_secondary_present then d.secondary_swell ++ [Day.skipLine] else []) ++
    d.wind ++ [Day.skipLine] ++ d.weather

/- ------------------------------------------------------------------ -/
/- Border (forecast.rs:40-119)                                        -/
/- ------------------------------------------------------------------ -/

/-- The three-span separator wrapped between interior lines. -/
def borderWrap : List Span := [Span.new LINE_VERT, Span.newline, Span.new LINE_VERT]

/-- `Border::border_top` (forecast.rs:75-109). -/
def border_top (title : List Char) : List Span :=
  let padded := ' ' :: title ++ [' ']
  let box_top := CORNER_TOP_LEFT ++ padAlignCenter '─' padded.length [] ++ CORNER_TOP_RIGHT
  let top := padAlignCenter ' ' VIEWPOINT_WIDTH box_top
  let box_mid := TEE_LEFT ++ padded ++ TEE_RIGHT
  let mid := CORNER_TOP_LEFT ++ padAlignCenter '─' INTERIOR_VIEWPOINT_WIDTH box_mid ++
    CORNER_TOP_RIGHT
  let box_btm := CORNER_BTM_LEFT ++ padAlignCenter '─' padded.length [] ++ CORNER_BTM_RIGHT
  let btm := LINE_VERT ++ padAlignCenter ' ' INTERIOR_VIEWPOINT_WIDTH box_btm ++ LINE_VERT
  [Span.new top, Span.newline, Span.new mid, Span.newline, Span.new btm]

/-- `Border::border_bottom` (forecast.rs:112-118). -/
def border_bottom : List Span :=
  [Span.new (CORNER_BTM_LEFT ++ padAlignCenter '─' INTERIOR_VIEWPOINT_WIDTH [] ++
    CORNER_BTM_RIGHT)]

/-- `Border::border` (forecast.rs:56-72): wrap the interior lines with the
titled border. -/
def borderSpans (title : List Char) (inner : List Line) : List Span :=
  border_top title ++ [Span.newline] ++
    (Span.new LINE_VERT :: List.intercalate borderWrap inner) ++
    [Span.new LINE_VERT, Span.newline] ++ border_bottom

/-- Rust `Iterator::min` on timestamps (the last minimal element wins ties). -/
def tsMin (l : List Timestamp) : Option Timestamp :=
  l.foldl
    (fun acc x =>
      match acc with
      | none => some x
      | some a => if x.t ≤ a.t then some x else some a)
    none

/-- Rust `Iterator::max` on timestamps (the last maximal element wins ties). -/
def tsMax (l : List Timestamp) : Option Timestamp :=
  l.foldl
    (fun acc x =>
      match acc with
      | none => some x
      | some a => if a.t ≤ x.t then some x else some a)
    none

/-- `Graph::title` (forecast.rs:132-148); the `unwrap` of the min and max
is unreachable on the non-empty forecasts `Graph::new` admits, so the
empty case carries a blank date. -/
def Graph.title (g : Graph) : List Char :=
  let date_init := ((tsMin (g.forecast.map (fun fc => fc.local_timestamp))).getD
    ⟨0, 0, [], []⟩).dateFmt
  let date_end := ((tsMax (g.forecast.map (fun fc => fc.local_timestamp))).getD
    ⟨0, 0, [], []⟩).dateFmt
  date_init ++ " - ".data ++ date_end

/-- `Border::draw` for the graph. -/
def Graph.draw (g : Graph) : List Span := borderSpans g.title g.draw_inner

/-- `Day::title` (forecast.rs:307-317); the `unwrap` of the first record
is unreachable on the non-empty slices the callers pass. -/
def Day.title (d : Day) : List Char :=
  match d.forecast with
  | [] => []
  | f :: _ => f.local_timestamp.dateFmt

/-- `Border::draw` for a day. -/
def Day.draw (d : Day) : List Span := borderSpans d.title d.draw_inner

/- ------------------------------------------------------------------ -/
/- View assembly (forecast.rs:18-36)                                  -/
/- ------------------------------------------------------------------ -/

/-- Rust `slice::split_inclusive`: split after each element satisfying the
predicate, the matching element staying in the preceding chunk; the empty
slice yields no chunks. -/
def splitInclusive (p : α → Bool) : List α → List (List α)
  | [] => []
  | x :: xs =>
    if p x then [x] :: splitInclusive p xs
    else
      match splitInclusive p xs with
      | [] => [[x]]
      | c :: cs => (x :: c) :: cs

/-- The day-partition predicate: `fc.local_timestamp.time().hour() == 21`. -/
def hourIs21 (fc : Forecast) : Bool := fc.local_timestamp.hour == 21

/-- `impl From<Vec<Forecast>> for View` (forecast.rs:18-36): the graph
spans for the whole range, then one newline plus day spans per non-empty
partition.  `Graph::new`'s panic on the empty forecast propagates; inside
the loop the non-emptiness guard is what lets `Day::new`'s assert pass,
so the day is built directly with `Day.make`. -/
def viewFrom (forecast : List Forecast) : Outcome View :=
  match Graph.new forecast with
  | Outcome.panic => Outcome.panic
  | Outcome.ok g =>
    let days := splitInclusive hourIs21 forecast
    Outcome.ok
      ⟨g.draw ++
        days.foldl
          (fun spans fc =>
            if fc.isEmpty then spans
            else spans ++ Span.newline :: (Day.make fc).draw)
          []⟩

/- ------------------------------------------------------------------ -/
/- Terminal renderer: src/lib/src/ui/terminal.rs                      -/
/- ------------------------------------------------------------------ -/

/-- terminal.rs `ansi::RED`. -/
def ansiRed : List Char := "\u001B[0;31m".data

/-- terminal.rs `ansi::GREEN`. -/
def ansiGreen : List Char := "\u001B[0;32m".data

/-- terminal.rs `ansi::BLUE`. -/
def ansiBlue : List Char := "\u001B[0;34m".data

/-- terminal.rs `ansi::RESET`. -/
def ansiReset : List Char := "\u001B[0m".data

/-- terminal.rs `to_code`. -/
def to_code (color : Color) : List Char :=
  match color with
  | Color.Red => ansiRed
  | Color.Blue => ansiBlue
  | Color.Green => ansiGreen

/-- `impl Render for Terminal` (terminal.rs:8-27): walk the spans in
order, accumulating the output string. -/
def Terminal.render (view : View) : List Char :=
  view.spans.foldl
    (fun output span =>
      let output1 :=
        match span.style.fg with
        | some color => output ++ to_code color
        | none => output
      let output2 :=
        match span.content with
        | Content.Text text => output1 ++ text
        | Content.Newline => output1 ++ ['\n']
      match span.style.fg with
      | some _ => output2 ++ ansiReset
      | none => output2)
    []

/- ------------------------------------------------------------------ -/
/- C9: terminal rendering                                             -/
/- ------------------------------------------------------------------ -/

/-- The per-span output the spec describes: a span with a foreground color
yields the ANSI escape, its content, then the reset escape; an unstyled
break span yields exactly the newline character; an unstyled text span
yields its text verbatim. -/
def specRenderSpan (s : Span) : List Char :=
  match s.style.fg with
  | some color =>
    to_code color ++
      (match s.content with
        | Content.Text text => text
        | Content.Newline => ['\n']) ++ ansiReset
  | none =>
    match s.content with
    | Content.Text text => text
    | Content.Newline => ['\n']

theorem foldl_append_of_fn (f : Span → List Char) :
    ∀ (l : List Span) (a : List Char),
      l.foldl (fun acc s => acc ++ f s) a = a ++ (l.map f).flatten := by
  intro l
  induction l with
  | nil => intro a; simp
  | cons x xs ih =>
    intro a
    simp only [List.foldl_cons, List.map_cons, List.flatten]
    rw [ih]
    simp

/-- C9: the terminal renderer walks the spans in order and emits exactly
the concatenation of the per-span renderings of the spec. -/
theorem terminal_render_spec (view : View) :
    Terminal.render view = (view.spans.map specRenderSpan).flatten := by
  have hb :
      (fun (output : List Char) (span : Span) =>
          let output1 :=
            match span.style.fg with
            | some color => output ++ to_code color
            | none => output
          let output2 :=
            match span.content with
            | Content.Text text => output1 ++ text
            | Content.Newline => output1 ++ ['\n']
          match span.style.fg with
          | some _ => output2 ++ ansiReset
          | none => output2) =
        fun output span => output ++ specRenderSpan span := by
    funext output span
    cases hfg : span.style.fg <;> cases hc : span.content <;>
      simp [specRenderSpan, hfg, hc]
  unfold Terminal.render
  rw [hb, foldl_append_of_fn]
  simp

/- ------------------------------------------------------------------ -/
/- C3: construction on empty and non-empty slices                     -/
/- ------------------------------------------------------------------ -/

/-- C3 counterexample: on the empty slice, both `Graph::new` and
`Day::new` panic through their `assert!` (documented "Panics on empty
forecast"); neither returns any reported error value, and the code has no
error type at all. -/
theorem construction_empty_panics :
    Graph.new ([] : List Forecast) = Outcome.panic ∧
      Day.new ([] : List Forecast) = Outcome.panic :=
  ⟨rfl, rfl⟩

/-- C3 amended: empty-slice construction panics via the assert rather
than returning an error value, and every non-empty slice constructs
successfully. -/
theorem construction_empty_panics_nonempty_ok :
    (Graph.new ([] : List Forecast) = Outcome.panic ∧
        Day.new ([] : List Forecast) = Outcome.panic) ∧
      ∀ fc : List Forecast, fc ≠ [] →
        (∃ g, Graph.new fc = Outcome.ok g) ∧ ∃ d, Day.new fc = Outcome.ok d := by
  refine ⟨⟨rfl, rfl⟩, ?_⟩
  intro fc hne
  match fc, hne with
  | f :: fs, _ => exact ⟨⟨_, rfl⟩, _, rfl⟩

/-- Witness: the one-record sample slice constructs a graph and a day. -/
theorem construction_nonempty_ok_witness :
    (∃ g, Graph.new [sampleForecast] = Outcome.ok g) ∧
      ∃ d, Day.new [sampleForecast] = Outcome.ok d :=
  construction_empty_panics_nonempty_ok.2 [sampleForecast] (by simp)

/- ------------------------------------------------------------------ -/
/- C8: legend label lengths                                           -/
/- ------------------------------------------------------------------ -/

/-- C8: with the shared width `legend_num_str_len = max(len(min), len(max))`,
the two legend labels of `Graph::legend_column` always have equal length,
whatever strings the float formatter produced, so the `assert_eq!` on
them never fails. -/
theorem legend_labels_equal_length (maxStr minStr unitStr : List Char) :
    (legendEntry maxStr unitStr (max minStr.length maxStr.length)).length =
      (legendEntry minStr unitStr (max minStr.length maxStr.length)).length := by
  simp [legendEntry, padAlignRight_length]

/- ------------------------------------------------------------------ -/
/- C5: color rule and boundary coloring                               -/
/- ------------------------------------------------------------------ -/

theorem boundaryRow_get? :
    ∀ (hs : List ℕ) (cs : List Color) (y i : ℕ), i + 1 < hs.length →
      hs.length = cs.length →
      (boundaryRow hs cs y).get? i =
        some (boundarySpan (hs.getD (i + 1) 0) (hs.getD i 0) y
          (cs.getD (i + 1) Color.Red)) := by
  intro hs
  induction hs with
  | nil =>
    intro cs y i hi hlen
    simp at hi
  | cons h1 hs ih =>
    intro cs y i hi hlen
    cases hs with
    | nil => simp at hi
    | cons h2 hs' =>
      cases cs with
      | nil => simp at hlen
      | cons c1 cs' =>
        cases cs' with
        | nil => simp at hlen
        | cons c2 cs'' =>
          cases i with
          | zero => simp [boundaryRow, List.getD]
          | succ i =>
            have hr := ih (c2 :: cs'') y i (by simp at hi ⊢; omega)
              (by simp at hlen ⊢; omega)
            simp only [boundaryRow, List.get?_cons_succ, hr]
            simp [List.getD]

theorem getD_map_of_lt {α β : Type} (f : α → β) (l : List α) (i : ℕ)
    (hi : i < l.length) (d : β) (d' : α) :
    (l.map f).getD i d = f (l.getD i d') := by
  simp [List.getD_eq_getElem?_getD, List.getElem?_map, List.getElem?_eq_getElem hi]

/-- C5: the color rule is exactly the nested conditional of the spec
(`solid_rating == 0` red, else `faded_rating == 0` green, else blue), and
every boundary span between bins `i` and `i+1` in a graph row carries the
glyph for the two adjacent heights and the color computed for bin `i+1`,
the right-hand bin. -/
theorem color_rule_and_boundary_coloring :
    (∀ fc : Forecast,
        Graph.color fc =
          (if fc.solid_rating = 0 then Color.Red
            else if fc.faded_rating = 0 then Color.Green else Color.Blue))
    ∧ ∀ (g : Graph) (y i : ℕ), i + 1 < g.forecast.length →
        (boundaryRow g.heights g.colors y).get? i =
          some (Span.withFg
            (boundaryGlyph (g.heights.getD (i + 1) 0) (g.heights.getD i 0) y)
            (Graph.color (g.forecast.getD (i + 1) g.midnight))) := by
  constructor
  · intro fc
    rcases hs : fc.solid_rating with _ | s <;>
      rcases hf : fc.faded_rating with _ | f <;>
        simp [Graph.color, hs, hf]
  · intro g y i hi
    have hlen1 : g.heights.length = g.forecast.length := by
      simp [Graph.heights]
    have hlen2 : g.colors.length = g.forecast.length := by
      simp [Graph.colors]
    rw [boundaryRow_get? g.heights g.colors y i (by omega) (by omega)]
    have hc : g.colors.getD (i + 1) Color.Red =
        Graph.color (g.forecast.getD (i + 1) g.midnight) := by
      exact getD_map_of_lt Graph.color g.forecast (i + 1) (by omega) Color.Red g.midnight
    rw [hc]
    rfl

/-- A second record: flat solid rating, so its color is red. -/
def sampleForecast2 : Forecast :=
  { sampleForecast with
      solid_rating := 0
      local_timestamp := ⟨1645689600, 8, "Thu Feb 24".data, "8am".data⟩ }

/-- A two-record graph for boundary witnesses. -/
def sampleGraph2 : Graph := ⟨[sampleForecast, sampleForecast2], 0, 4, sampleForecast⟩

/-- Witness: the single boundary of the two-record sample graph at row 0
carries the right-hand bin's color. -/
theorem color_rule_and_boundary_coloring_witness :
    (boundaryRow sampleGraph2.heights sampleGraph2.colors 0).get? 0 =
      some (Span.withFg
        (boundaryGlyph (sampleGraph2.heights.getD 1 0) (sampleGraph2.heights.getD 0 0) 0)
        (Graph.color (sampleGraph2.forecast.getD 1 sampleGraph2.midnight))) :=
  color_rule_and_boundary_coloring.2 sampleGraph2 0 0 (by simp [sampleGraph2])

/- ------------------------------------------------------------------ -/
/- C4: view assembly and day partitioning                             -/
/- ------------------------------------------------------------------ -/

theorem splitInclusive_flatten (p : α → Bool) :
    ∀ l : List α, (splitInclusive p l).flatten = l := by
  intro l
  induction l with
  | nil => rfl
  | cons x xs ih =>
    cases hpx : p x with
    | true => simp [splitInclusive, hpx, ih]
    | false =>
      simp only [splitInclusive, hpx, Bool.false_eq_true, if_false]
      cases hsi : splitInclusive p xs with
      | nil =>
        rw [hsi] at ih
        simp at ih
        simp [ih]
      | cons c cs =>
        rw [hsi] at ih
        simpa using ih

theorem splitInclusive_ne_nil (p : α → Bool) :
    ∀ l : List α, ∀ c ∈ splitInclusive p l, c ≠ [] := by
  intro l
  induction l with
  | nil => intro c hc; simp [splitInclusive] at hc
  | cons x xs ih =>
    intro c hc
    cases hpx : p x with
    | true =>
      rw [splitInclusive, if_pos hpx, List.mem_cons] at hc
      rcases hc with hc | hc
      · simp [hc]
      · exact ih c hc
    | false =>
      rw [splitInclusive, if_neg (by simp [hpx])] at hc
      cases hsi : splitInclusive p xs with
      | nil =>
        rw [hsi] at hc
        simp at hc
        simp [hc]
      | cons c0 cs0 =>
        rw [hsi, List.mem_cons] at hc
        rcases hc with hc | hc
        · simp [hc]
        · exact ih c (by rw [hsi]; exact List.mem_cons_of_mem c0 hc)

theorem splitInclusive_inner_not_sat (p : α → Bool) :
    ∀ l : List α, ∀ c ∈ splitInclusive p l, ∀ x ∈ c.dropLast, p x = false := by
  intro l
  induction l with
  | nil => intro c hc; simp [splitInclusive] at hc
  | cons x xs ih =>
    intro c hc r hr
    cases hpx : p x with
    | true =>
      rw [splitInclusive, if_pos hpx, List.mem_cons] at hc
      rcases hc with hc | hc
      · subst hc; simp at hr
      · exact ih c hc r hr
    | false =>
      rw [splitInclusive, if_neg (by simp [hpx])] at hc
      cases hsi : splitInclusive p xs with
      | nil =>
        rw [hsi] at hc
        simp at hc
        subst hc
        simp at hr
      | cons c0 cs0 =>
        rw [hsi, List.mem_cons] at hc
        rcases hc with hc | hc
        · subst hc
          have hc0 : c0 ≠ [] :=
            splitInclusive_ne_nil p xs c0
              (by rw [hsi]; exact List.mem_cons_self c0 cs0)
          rw [List.dropLast_cons_of_ne_nil hc0, List.mem_cons] at hr
          rcases hr with hr | hr
          · subst hr; exact hpx
          · exact ih c0 (by rw [hsi]; exact List.mem_cons_self c0 cs0) r hr
        · exact ih c (by rw [hsi]; exact List.mem_cons_of_mem c0 hc) r hr

theorem splitInclusive_chunk_last_sat (p : α → Bool) :
    ∀ l : List α, ∀ c ∈ (splitInclusive p l).dropLast,
      ∃ a, c.getLast? = some a ∧ p a = true := by
  intro l
  induction l with
  | nil => intro c hc; simp [splitInclusive] at hc
  | cons x xs ih =>
    intro c hc
    cases hpx : p x with
    | true =>
      rw [splitInclusive, if_pos hpx] at hc
      cases hsi : splitInclusive p xs with
      | nil =>
        rw [hsi] at hc
        simp at hc
      | cons c0 cs0 =>
        rw [hsi, List.dropLast_cons_of_ne_nil (by simp), List.mem_cons] at hc
        rcases hc with hc | hc
        · subst hc
          exact ⟨x, rfl, hpx⟩
        · exact ih c (by rw [hsi]; exact hc)
    | false =>
      rw [splitInclusive, if_neg (by simp [hpx])] at hc
      cases hsi : splitInclusive p xs with
      | nil =>
        rw [hsi] at hc
        simp at hc
      | cons c0 cs0 =>
        rw [hsi] at hc
        cases cs0 with
        | nil => simp at hc
        | cons c1 cs1 =>
          rw [List.dropLast_cons_of_ne_nil (by simp), List.mem_cons] at hc
          rcases hc with hc | hc
          · subst hc
            have hc0 : c0 ≠ [] :=
              splitInclusive_ne_nil p xs c0
                (by rw [hsi]; exact List.mem_cons_self c0 (c1 :: cs1))
            have hmem : c0 ∈ (splitInclusive p xs).dropLast := by
              rw [hsi, List.dropLast_cons_of_ne_nil (by simp)]
              exact List.mem_cons_self c0 (c1 :: cs1).dropLast
            rcases ih c0 hmem with ⟨a, ha, hpa⟩
            refine ⟨a, ?_, hpa⟩
            obtain ⟨b, t, rfl⟩ := List.exists_cons_of_ne_nil hc0
            rw [List.getLast?_cons_cons]
            exact ha
          · exact ih c
              (by
                rw [hsi, List.dropLast_cons_of_ne_nil (by simp)]
                exact List.mem_cons_of_mem c0 hc)

theorem foldl_day_spans :
    ∀ days : List (List Forecast), (∀ c ∈ days, c ≠ []) →
      ∀ init : List Span,
        days.foldl
          (fun spans fc =>
            if fc.isEmpty then spans
            else spans ++ Span.newline :: (Day.make fc).draw)
          init =
        init ++
          (days.map (fun part => Span.newline :: (Day.make part).draw)).flatten := by
  intro days
  induction days with
  | nil => intro h init; simp
  | cons d ds ih =>
    intro h init
    have hd : d ≠ [] := h d (List.mem_cons_self d ds)
    have hde : d.isEmpty = false := by
      cases d with
      | nil => exact absurd rfl hd
      | cons a as => rfl
    simp only [List.foldl_cons, hde, Bool.false_eq_true, if_false]
    rw [ih (fun c hc => h c (List.mem_cons_of_mem d hc))]
    simp

/-- C4: on a non-empty forecast, view assembly emits the graph spans for
the whole range once, followed, for each partition of the forecast split
inclusively after records with local hour 21, by one line-break span and
that partition's day spans; the partitions concatenate back to the
original sequence, are all non-empty, have hour-21 records only in final
position, and every non-final partition ends with an hour-21 record. -/
theorem view_assembly (x : Forecast) (xs : List Forecast) :
    (∃ g, Graph.new (x :: xs) = Outcome.ok g ∧
        viewFrom (x :: xs) =
          Outcome.ok
            ⟨g.draw ++
              ((splitInclusive hourIs21 (x :: xs)).map
                  (fun part => Span.newline :: (Day.make part).draw)).flatten⟩)
    ∧ (splitInclusive hourIs21 (x :: xs)).flatten = x :: xs
    ∧ (∀ part ∈ splitInclusive hourIs21 (x :: xs),
        part ≠ [] ∧ ∀ r ∈ part.dropLast, hourIs21 r = false)
    ∧ ∀ part ∈ (splitInclusive hourIs21 (x :: xs)).dropLast,
        ∃ r, part.getLast? = some r ∧ hourIs21 r = true := by
  refine ⟨⟨_, rfl, ?_⟩, splitInclusive_flatten _ _,
    fun part hp =>
      ⟨splitInclusive_ne_nil _ _ part hp,
        splitInclusive_inner_not_sat _ _ part hp⟩,
    splitInclusive_chunk_last_sat _ _⟩
  have hfold := foldl_day_spans (splitInclusive hourIs21 (x :: xs))
    (splitInclusive_ne_nil _ _) []
  simp only [viewFrom, Graph.new]
  rw [hfold]
  simp

/-- Witness: view assembly at a concrete two-record forecast. -/
theorem view_assembly_witness :
    (∃ g, Graph.new (sampleForecast :: [sampleForecast2]) = Outcome.ok g ∧
        viewFrom (sampleForecast :: [sampleForecast2]) =
          Outcome.ok
            ⟨g.draw ++
              ((splitInclusive hourIs21 (sampleForecast :: [sampleForecast2])).map
                  (fun part => Span.newline :: (Day.make part).draw)).flatten⟩)
    ∧ (splitInclusive hourIs21 (sampleForecast :: [sampleForecast2])).flatten =
        sampleForecast :: [sampleForecast2]
    ∧ (∀ part ∈ splitInclusive hourIs21 (sampleForecast :: [sampleForecast2]),
        part ≠ [] ∧ ∀ r ∈ part.dropLast, hourIs21 r = false)
    ∧ ∀ part ∈ (splitInclusive hourIs21 (sampleForecast :: [sampleForecast2])).dropLast,
        ∃ r, part.getLast? = some r ∧ hourIs21 r = true :=
  view_assembly sampleForecast [sampleForecast2]

/- ------------------------------------------------------------------ -/
/- C1: interior line widths                                           -/
/- ------------------------------------------------------------------ -/

theorem interleave_lineWidth_aux :
    ∀ (n : ℕ) (xs ys : List Span), xs.length + ys.length ≤ n →
      lineWidth (interleave xs ys) = lineWidth xs + lineWidth ys := by
  intro n
  induction n with
  | zero =>
    intro xs ys h
    cases xs with
    | nil => simp [interleave, lineWidth]
    | cons a as => simp at h
  | succ n ih =>
    intro xs ys h
    cases xs with
    | nil => simp [interleave, lineWidth]
    | cons a as =>
      rw [interleave]
      have hrec := ih ys as (by simp at h ⊢; omega)
      simp [lineWidth] at hrec ⊢
      omega

theorem interleave_lineWidth (xs ys : List Span) :
    lineWidth (interleave xs ys) = lineWidth xs + lineWidth ys :=
  interleave_lineWidth_aux (xs.length + ys.length) xs ys le_rfl

theorem binSpan_width (height y bin_width : ℕ) (c : Color) :
    (binSpan height y bin_width c).width = bin_width := by
  unfold binSpan
  cases cmpN height y <;>
    simp [Span.withFg, Span.width, padAlignCenter_length, padAlignLeft_length]

theorem binRow_lineWidth :
    ∀ (hs : List ℕ) (cs : List Color) (w y : ℕ), hs.length = cs.length →
      lineWidth (binRow hs cs w y) = hs.length * w := by
  intro hs
  induction hs with
  | nil => intro cs w y hlen; simp [binRow, lineWidth]
  | cons h1 hs ih =>
    intro cs w y hlen
    cases cs with
    | nil => simp at hlen
    | cons c1 cs' =>
      have hrec := ih cs' w y (by simpa using hlen)
      simp only [binRow, List.zipWith_cons_cons, lineWidth, List.map_cons,
        List.sum_cons] at hrec ⊢
      rw [binSpan_width, hrec, List.length_cons, Nat.succ_mul, Nat.add_comm]

theorem boundaryMatch_length (a b c : Ordering) :
    (boundaryMatch a b c).length = 1 := by
  cases a <;> cases b <;> cases c <;> rfl

theorem boundarySpan_width (h last y : ℕ) (c : Color) :
    (boundarySpan h last y c).width = 1 := by
  simp [boundarySpan, Span.withFg, Span.width, boundaryGlyph, boundaryMatch_length]

theorem boundaryRow_lineWidth :
    ∀ (hs : List ℕ) (cs : List Color) (y : ℕ), hs.length = cs.length →
      lineWidth (boundaryRow hs cs y) = hs.length - 1 := by
  intro hs
  induction hs with
  | nil => intro cs y hlen; cases cs <;> simp [boundaryRow, lineWidth]
  | cons h1 hs ih =>
    intro cs y hlen
    cases hs with
    | nil =>
      cases cs with
      | nil => simp at hlen
      | cons c1 cs' => cases cs' <;> simp [boundaryRow, lineWidth]
    | cons h2 hs' =>
      cases cs with
      | nil => simp at hlen
      | cons c1 cs' =>
        cases cs' with
        | nil => simp at hlen
        | cons c2 cs'' =>
          have hrec := ih (c2 :: cs'') y (by simpa using hlen)
          simp only [boundaryRow, lineWidth, List.map_cons, List.sum_cons] at hrec ⊢
          rw [boundarySpan_width, hrec]
          simp [Nat.add_comm]

theorem legendEntry_length (numStr unitStr : List Char) (w : ℕ) :
    (legendEntry numStr unitStr w).length =
      1 + max w numStr.length + 1 + unitStr.length + 1 := by
  simp [legendEntry, padAlignRight_length]
  omega

theorem legendColumn_fst_length (maxStr minStr unitStr : List Char) :
    (legendColumn maxStr minStr unitStr).1.length = SWELL_GRAPH_HEIGHT := by
  simp [legendColumn]

theorem legendColumn_spans_width (maxStr minStr unitStr : List Char) :
    ∀ s ∈ (legendColumn maxStr minStr unitStr).1,
      s.width = (legendColumn maxStr minStr unitStr).2 := by
  intro s hs
  simp only [legendColumn] at hs ⊢
  rcases List.mem_or_eq_of_mem_set hs with hs1 | hs1
  · rcases List.mem_or_eq_of_mem_set hs1 with hs2 | hs2
    · have hb := List.eq_of_mem_replicate hs2
      subst hb
      simp [Span.new, Span.width]
    · subst hs2
      simp [Span.new, Span.width]
  · subst hs1
    simp only [Span.new, Span.width]
    rw [legendEntry_length, legendEntry_length]
    omega

theorem legendColumn_getD_width (maxStr minStr unitStr : List Char) (y : ℕ) :
    ((legendColumn maxStr minStr unitStr).1.getD y
        (Span.new (List.replicate (legendColumn maxStr minStr unitStr).2 ' '))).width =
      (legendColumn maxStr minStr unitStr).2 := by
  by_cases hy : y < (legendColumn maxStr minStr unitStr).1.length
  · rw [List.getD_eq_getElem _ _ hy]
    exact legendColumn_spans_width maxStr minStr unitStr _ (List.getElem_mem hy)
  · rw [List.getD_eq_default _ _ (by omega)]
    simp [Span.new, Span.width]

theorem lineWidth_cons (s : Span) (l : List Span) :
    lineWidth (s :: l) = s.width + lineWidth l := by
  simp [lineWidth]

theorem lineWidth_append (l1 l2 : List Span) :
    lineWidth (l1 ++ l2) = lineWidth l1 + lineWidth l2 := by
  simp [lineWidth]

theorem lineWidth_single (s : Span) : lineWidth [s] = s.width := by
  simp [lineWidth]

/-- The legend width computed inside `Graph::draw_inner`. -/
def Graph.legend_width (g : Graph) : ℕ :=
  (legendColumn (fmtF32 g.max_swell_height) (fmtF32 g.min_swell_height)
    g.midnight.swell.unit.display).2

theorem graph_lines_width_aux (g : Graph) (hne : g.forecast ≠ [])
    (hfit : g.legend_width + (g.forecast.length - 1) ≤ INTERIOR_VIEWPOINT_WIDTH) :
    ∀ line ∈ g.draw_inner, lineWidth line = INTERIOR_VIEWPOINT_WIDTH := by
  intro line hline
  simp only [Graph.draw_inner, List.mem_map, List.mem_range] at hline
  obtain ⟨y, hy, rfl⟩ := hline
  have hn : 1 ≤ g.forecast.length := by
    cases hfc : g.forecast with
    | nil => exact absurd hfc hne
    | cons a as => simp
  have hlh : g.heights.length = g.forecast.length := by simp [Graph.heights]
  have hlc : g.colors.length = g.forecast.length := by simp [Graph.colors]
  rw [lineWidth_append, lineWidth_cons, interleave_lineWidth,
    binRow_lineWidth _ _ _ _ (by omega), boundaryRow_lineWidth _ _ _ (by omega),
    lineWidth_single, legendColumn_getD_width, hlh]
  simp only [Span.new, Span.width, padAlignLeft_length, List.length_nil, Nat.max_zero]
  rw [Graph.legend_width] at hfit
  have h88 : INTERIOR_VIEWPOINT_WIDTH = 88 := by
    norm_num [INTERIOR_VIEWPOINT_WIDTH, VIEWPOINT_WIDTH]
  have hmul := Nat.div_mul_le_self
    (INTERIOR_VIEWPOINT_WIDTH -
        (legendColumn (fmtF32 g.max_swell_height) (fmtF32 g.min_swell_height)
          g.midnight.swell.unit.display).2 -
      (g.forecast.length - 1))
    g.forecast.length
  rw [Nat.mul_comm g.forecast.length
    ((INTERIOR_VIEWPOINT_WIDTH -
          (legendColumn (fmtF32 g.max_swell_height) (fmtF32 g.min_swell_height)
            g.midnight.swell.unit.display).2 -
        (g.forecast.length - 1)) /
      g.forecast.length)]
  generalize hA :
    (INTERIOR_VIEWPOINT_WIDTH -
          (legendColumn (fmtF32 g.max_swell_height) (fmtF32 g.min_swell_height)
            g.midnight.swell.unit.display).2 -
        (g.forecast.length - 1)) /
        g.forecast.length *
      g.forecast.length = A at hmul ⊢
  generalize hL :
    (legendColumn (fmtF32 g.max_swell_height) (fmtF32 g.min_swell_height)
      g.midnight.swell.unit.display).2 = L at hmul hfit ⊢
  rw [h88] at hmul hfit ⊢
  omega

/-- Executable fit check: every formatted cell string of the day fits
within the computed bin width (and so centering pads it to exactly the
bin width). -/
def Day.cellsFit (d : Day) : Bool :=
  d.forecast.all fun fc =>
    Nat.ble fc.local_timestamp.timeFmt.length d.bin_width &&
    Nat.ble (windSpeedStr fc.wind).length d.bin_width &&
    Nat.ble (arrowDegStr (compass_to_arrow fc.wind.compass_direction)
      fc.wind.direction).length d.bin_width &&
    Nat.ble (tempStr fc.condition).length d.bin_width &&
    (match fc.swell.components.primary with
      | some c =>
        Nat.ble (swellHeightStr c fc.swell.unit).length d.bin_width &&
        Nat.ble (swellPeriodStr c).length d.bin_width &&
        Nat.ble (arrowDegStr (compass_to_arrow c.compass_direction)
          c.direction).length d.bin_width
      | none => true) &&
    (match fc.swell.components.secondary with
      | some c =>
        Nat.ble (swellHeightStr c fc.swell.unit).length d.bin_width &&
        Nat.ble (swellPeriodStr c).length d.bin_width &&
        Nat.ble (arrowDegStr (compass_to_arrow c.compass_direction)
          c.direction).length d.bin_width
      | none => true)

theorem flatMap_lineWidth (f : Forecast → List Span) (k : ℕ) :
    ∀ l : List Forecast, (∀ fc ∈ l, lineWidth (f fc) = k) →
      lineWidth (l.flatMap f) = l.length * k := by
  intro l
  induction l with
  | nil => intro h; simp [lineWidth]
  | cons a as ih =>
    intro h
    rw [List.flatMap_cons, lineWidth_append, h a (List.mem_cons_self a as),
      ih fun fc hfc => h fc (List.mem_cons_of_mem a hfc)]
    simp [Nat.succ_mul, Nat.add_comm]

theorem day_boundary_width (d : Day) : d.boundary.width = 1 := by
  simp [Day.boundary, Span.new, Span.width, padAlignCenter_length, Day.BOUNDARY_WIDTH]

theorem day_cell_width (d : Day) (s : List Char) (hs : s.length ≤ d.bin_width) :
    (d.cell s).width = d.bin_width := by
  simp [Day.cell, Span.new, Span.width, padAlignCenter_length]
  omega

theorem day_row_width (d : Day) (legend : List Char) (cells : List Span)
    (hleg : legend.length ≤ Day.LEGEND_WIDTH)
    (hcells : lineWidth cells = d.forecast.length * (1 + d.bin_width))
    (harith : Day.LEGEND_WIDTH + d.forecast.length * (1 + d.bin_width) +
        d.right_margin = INTERIOR_VIEWPOINT_WIDTH) :
    lineWidth (Span.new (padAlignCenter ' ' Day.LEGEND_WIDTH legend) ::
        cells ++ [d.marginSpan]) = INTERIOR_VIEWPOINT_WIDTH := by
  rw [lineWidth_append, lineWidth_cons, hcells, lineWidth_single]
  simp only [Span.new, Span.width, padAlignCenter_length, Day.marginSpan,
    padAlignLeft_length, List.length_nil, Nat.max_zero]
  omega

theorem day_skipLine_width : lineWidth Day.skipLine = INTERIOR_VIEWPOINT_WIDTH := by
  simp [Day.skipLine, lineWidth, Span.new, Span.width, padAlignCenter_length]

theorem cellsFit_spec (d : Day) (hfit : d.cellsFit = true) :
    ∀ fc ∈ d.forecast,
      fc.local_timestamp.timeFmt.length ≤ d.bin_width ∧
      (windSpeedStr fc.wind).length ≤ d.bin_width ∧
      (arrowDegStr (compass_to_arrow fc.wind.compass_direction)
        fc.wind.direction).length ≤ d.bin_width ∧
      (tempStr fc.condition).length ≤ d.bin_width ∧
      (∀ c, fc.swell.components.primary = some c →
        (swellHeightStr c fc.swell.unit).length ≤ d.bin_width ∧
        (swellPeriodStr c).length ≤ d.bin_width ∧
        (arrowDegStr (compass_to_arrow c.compass_direction)
          c.direction).length ≤ d.bin_width) ∧
      (∀ c, fc.swell.components.secondary = some c →
        (swellHeightStr c fc.swell.unit).length ≤ d.bin_width ∧
        (swellPeriodStr c).length ≤ d.bin_width ∧
        (arrowDegStr (compass_to_arrow c.compass_direction)
          c.direction).length ≤ d.bin_width) := by
  intro fc hfc
  rw [Day.cellsFit, List.all_eq_true] at hfit
  have h := hfit fc hfc
  simp only [Bool.and_eq_true, Nat.ble_eq] at h
  obtain ⟨⟨⟨⟨⟨h1, h2⟩, h3⟩, h4⟩, h5⟩, h6⟩ := h
  refine ⟨h1, h2, h3, h4, ?_, ?_⟩
  · intro c hc
    rw [hc] at h5
    simp only [Bool.and_eq_true, Nat.ble_eq] at h5
    exact ⟨h5.1.1, h5.1.2, h5.2⟩
  · intro c hc
    rw [hc] at h6
    simp only [Bool.and_eq_true, Nat.ble_eq] at h6
    exact ⟨h6.1.1, h6.1.2, h6.2⟩

theorem day_pair_width (d : Day) (s : Span) (hs : s.width = d.bin_width) :
    lineWidth [d.boundary, s] = 1 + d.bin_width := by
  have hb := day_boundary_width d
  simp only [lineWidth, List.map_cons, List.map_nil, List.sum_cons, List.sum_nil]
  omega

theorem day_time_width (d : Day) (hfit : d.cellsFit = true)
    (harith : Day.LEGEND_WIDTH + d.forecast.length * (1 + d.bin_width) +
        d.right_margin = INTERIOR_VIEWPOINT_WIDTH) :
    ∀ line ∈ d.time, lineWidth line = INTERIOR_VIEWPOINT_WIDTH := by
  intro line hline
  rw [Day.time, List.mem_singleton] at hline
  subst hline
  refine day_row_width d _ _ (by decide) ?_ harith
  refine flatMap_lineWidth _ _ _ fun fc hfc => ?_
  exact day_pair_width d _
    (day_cell_width d _ (cellsFit_spec d hfit fc hfc).1)

theorem day_swellGroup_width (d : Day) (legend : List Char)
    (component : SwellComponents → Option SwellComponent)
    (hleg : legend.length ≤ Day.LEGEND_WIDTH)
    (hcomp : ∀ fc ∈ d.forecast, ∀ c, component fc.swell.components = some c →
      (swellHeightStr c fc.swell.unit).length ≤ d.bin_width ∧
      (swellPeriodStr c).length ≤ d.bin_width ∧
      (arrowDegStr (compass_to_arrow c.compass_direction)
        c.direction).length ≤ d.bin_width)
    (harith : Day.LEGEND_WIDTH + d.forecast.length * (1 + d.bin_width) +
        d.right_margin = INTERIOR_VIEWPOINT_WIDTH) :
    ∀ line ∈ d.swellGroup legend component, lineWidth line = INTERIOR_VIEWPOINT_WIDTH := by
  intro line hline
  rw [Day.swellGroup] at hline
  simp only [List.mem_cons, List.mem_singleton, List.not_mem_nil, or_false] at hline
  rcases hline with rfl | rfl | rfl
  · refine day_row_width d _ _ (by simp) ?_ harith
    refine flatMap_lineWidth _ _ _ fun fc hfc => ?_
    refine day_pair_width d _ ?_
    cases hc : component fc.swell.components with
    | some c =>
      rw [Day.swellCellH, hc]
      exact day_cell_width d _ (hcomp fc hfc c hc).1
    | none =>
      rw [Day.swellCellH, hc]
      exact day_cell_width d _ (by simp)
  · refine day_row_width d _ _ hleg ?_ harith
    refine flatMap_lineWidth _ _ _ fun fc hfc => ?_
    refine day_pair_width d _ ?_
    cases hc : component fc.swell.components with
    | some c =>
      rw [Day.swellCellP, hc]
      exact day_cell_width d _ (hcomp fc hfc c hc).2.1
    | none =>
      rw [Day.swellCellP, hc]
      exact day_cell_width d _ (by simp)
  · refine day_row_width d _ _ (by decide) ?_ harith
    refine flatMap_lineWidth _ _ _ fun fc hfc => ?_
    refine day_pair_width d _ ?_
    cases hc : component fc.swell.components with
    | some c =>
      rw [Day.swellCellD, hc]
      exact day_cell_width d _ (hcomp fc hfc c hc).2.2
    | none =>
      rw [Day.swellCellD, hc]
      exact day_cell_width d _ (by simp)

theorem day_wind_width (d : Day) (hfit : d.cellsFit = true)
    (harith : Day.LEGEND_WIDTH + d.forecast.length * (1 + d.bin_width) +
        d.right_margin = INTERIOR_VIEWPOINT_WIDTH) :
    ∀ line ∈ d.wind, lineWidth line = INTERIOR_VIEWPOINT_WIDTH := by
  intro line hline
  rw [Day.wind] at hline
  simp only [List.mem_cons, List.mem_singleton, List.not_mem_nil, or_false] at hline
  rcases hline with rfl | rfl
  · refine day_row_width d _ _ (by decide) ?_ harith
    refine flatMap_lineWidth _ _ _ fun fc hfc => ?_
    exact day_pair_width d _
      (day_cell_width d _ (cellsFit_spec d hfit fc hfc).2.1)
  · refine day_row_width d _ _ (by decide) ?_ harith
    refine flatMap_lineWidth _ _ _ fun fc hfc => ?_
    exact day_pair_width d _
      (day_cell_width d _ (cellsFit_spec d hfit fc hfc).2.2.1)

theorem day_weather_width (d : Day) (hfit : d.cellsFit = true)
    (harith : Day.LEGEND_WIDTH + d.forecast.length * (1 + d.bin_width) +
        d.right_margin = INTERIOR_VIEWPOINT_WIDTH) :
    ∀ line ∈ d.weather, lineWidth line = INTERIOR_VIEWPOINT_WIDTH := by
  intro line hline
  rw [Day.weather, List.mem_singleton] at hline
  subst hline
  refine day_row_width d _ _ (by decide) ?_ harith
  refine flatMap_lineWidth _ _ _ fun fc hfc => ?_
  exact day_pair_width d _
    (day_cell_width d _ (cellsFit_spec d hfit fc hfc).2.2.2.1)

theorem day_make_arith (fc : List Forecast) (hne : fc ≠ [])
    (hsz : fc.length + Day.LEGEND_WIDTH ≤ INTERIOR_VIEWPOINT_WIDTH) :
    Day.LEGEND_WIDTH +
        (Day.make fc).forecast.length * (1 + (Day.make fc).bin_width) +
        (Day.make fc).right_margin = INTERIOR_VIEWPOINT_WIDTH := by
  have hn : 1 ≤ fc.length := by
    cases hfc : fc with
    | nil => exact absurd hfc hne
    | cons a as => simp
  simp only [Day.make]
  have h88 : INTERIOR_VIEWPOINT_WIDTH = 88 := by
    norm_num [INTERIOR_VIEWPOINT_WIDTH, VIEWPOINT_WIDTH]
  have h11 : Day.LEGEND_WIDTH = 11 := rfl
  have hb1 : Day.BOUNDARY_WIDTH = 1 := rfl
  rw [h88, h11] at hsz
  rw [h88, h11, hb1]
  simp only [Nat.mul_one, Nat.mul_add]
  have hmul := Nat.div_mul_le_self (88 - fc.length - 11) fc.length
  rw [Nat.mul_comm ((88 - fc.length - 11) / fc.length) fc.length] at hmul
  generalize hA :
    fc.length * ((88 - fc.length - 11) / fc.length) = A at hmul ⊢
  omega

theorem day_lines_width_aux (fc : List Forecast) (hne : fc ≠ [])
    (hsz : fc.length + Day.LEGEND_WIDTH ≤ INTERIOR_VIEWPOINT_WIDTH)
    (hfit : (Day.make fc).cellsFit = true) :
    ∀ line ∈ (Day.make fc).draw_inner, lineWidth line = INTERIOR_VIEWPOINT_WIDTH := by
  intro line hline
  have harith := day_make_arith fc hne hsz
  rw [Day.draw_inner] at hline
  simp only [List.mem_append] at hline
  have hcomp := cellsFit_spec (Day.make fc) hfit
  rcases hline with ((((((h | h) | h) | h) | h) | h) | h) | h
  · exact day_time_width (Day.make fc) hfit harith line h
  · rw [List.mem_singleton] at h
    subst h
    exact day_skipLine_width
  · rw [Day.primary_swell] at h
    by_cases hp : (Day.make fc).is_primary_present
    · rw [if_pos hp] at h
      refine day_swellGroup_width (Day.make fc) _ _ (by decide)
        (fun fc' hfc' c hc => (hcomp fc' hfc').2.2.2.2.1 c hc) harith line h
    · rw [if_neg hp] at h
      simp at h
  · rw [List.mem_singleton] at h
    subst h
    exact day_skipLine_width
  · by_cases hs : (Day.make fc).is_secondary_present
    · rw [if_pos hs, List.mem_append] at h
      rcases h with h | h
      · rw [Day.secondary_swell, if_pos hs] at h
        refine day_swellGroup_width (Day.make fc) _ _ (by decide)
          (fun fc' hfc' c hc => (hcomp fc' hfc').2.2.2.2.2 c hc) harith line h
      · rw [List.mem_singleton] at h
        subst h
        exact day_skipLine_width
    · rw [if_neg hs] at h
      simp at h
  · exact day_wind_width (Day.make fc) hfit harith line h
  · rw [List.mem_singleton] at h
    subst h
    exact day_skipLine_width
  · exact day_weather_width (Day.make fc) hfit harith line h

theorem concat_margin_getLast (l : List Span) (m : ℕ) :
    ∃ k, (l ++ [Span.new (padAlignLeft ' ' m [])]).getLast? =
      some (Span.new (List.replicate k ' ')) :=
  ⟨m, by rw [List.getLast?_concat]; simp [padAlignLeft]⟩

/-- C1 (amended): provided the widths fit — for the graph, legend width
plus boundaries within the interior width; for a day, the record count
plus legend width within the interior width and every formatted cell
string within the bin width — every interior line of `Graph::draw_inner`
and of the `Day` row builders renders to exactly
`INTERIOR_VIEWPOINT_WIDTH` cells, and each graph line carries the
integer-division remainder as a single trailing blank span. -/
theorem interior_lines_width (g : Graph) (fc : List Forecast) :
    (g.forecast ≠ [] →
      g.legend_width + (g.forecast.length - 1) ≤ INTERIOR_VIEWPOINT_WIDTH →
      ∀ line ∈ g.draw_inner, lineWidth line = INTERIOR_VIEWPOINT_WIDTH)
    ∧ (fc ≠ [] → fc.length + Day.LEGEND_WIDTH ≤ INTERIOR_VIEWPOINT_WIDTH →
      (Day.make fc).cellsFit = true →
      ∀ line ∈ (Day.make fc).draw_inner, lineWidth line = INTERIOR_VIEWPOINT_WIDTH)
    ∧ ∀ line ∈ g.draw_inner, ∃ m, line.getLast? = some (Span.new (List.replicate m ' ')) := by
  refine ⟨fun hne hfit => graph_lines_width_aux g hne hfit,
    fun hne hsz hfit => day_lines_width_aux fc hne hsz hfit, ?_⟩
  intro line hline
  simp only [Graph.draw_inner, List.mem_map, List.mem_range] at hline
  obtain ⟨y, hy, rfl⟩ := hline
  exact concat_margin_getLast _ _

/-- A record with the largest possible `u32` wind speed. -/
def overflowForecast : Forecast :=
  { sampleForecast with wind := { sampleForecast.wind with speed := 4294967295 } }

/-- Six such records: the day bin width drops to 11 while the speed cell
string is 14 characters wide. -/
def overflowList : List Forecast := List.replicate 6 overflowForecast

/-- C1 counterexample: the wind-speed row of the day built from
`overflowList` renders to 106 cells, not `INTERIOR_VIEWPOINT_WIDTH`:
centering never truncates, so a cell string longer than the bin width
overflows the line. -/
theorem interior_lines_width_cex :
    ∃ line ∈ (Day.make overflowList).draw_inner,
      lineWidth line ≠ INTERIOR_VIEWPOINT_WIDTH := by
  refine ⟨Span.new (padAlignCenter ' ' Day.LEGEND_WIDTH " ".data) ::
      ((Day.make overflowList).forecast.flatMap fun fc =>
        [(Day.make overflowList).boundary,
          (Day.make overflowList).cell (windSpeedStr fc.wind)]) ++
      [(Day.make overflowList).marginSpan], ?_, ?_⟩
  · rw [Day.draw_inner]
    refine List.mem_append_left _ (List.mem_append_left _ (List.mem_append_right _ ?_))
    rw [Day.wind]
    exact List.mem_cons_self _ _
  · decide

theorem fmtF32_natCast (n : ℕ) : fmtF32 ((n : ℕ) : ℚ) = natRepr n := by
  have habs : |((n : ℕ) : ℚ)| = ((n : ℕ) : ℚ) := abs_of_nonneg (Nat.cast_nonneg n)
  have hfl : ⌊((n : ℕ) : ℚ)⌋ = ((n : ℕ) : ℤ) := Int.floor_natCast n
  rw [fmtF32, if_neg (Nat.cast_nonneg n).not_lt, habs, hfl]
  rw [if_pos (by push_cast; ring)]
  simp

theorem fmtDot0_natCast (n : ℕ) : fmtDot0 ((n : ℕ) : ℚ) = natRepr n := by
  rw [fmtDot0, rustRound, if_pos (Nat.cast_nonneg n)]
  have hfl : ⌊((n : ℕ) : ℚ) + 1 / 2⌋ = ((n : ℕ) : ℤ) := by
    rw [Int.floor_eq_iff]
    constructor
    · push_cast
      linarith
    · push_cast
      linarith
  rw [hfl, intRepr, if_neg (Int.natCast_nonneg n).not_lt]
  simp

/-- Witness: on the one-record sample graph and sample day, all interior
lines are exactly `INTERIOR_VIEWPOINT_WIDTH` cells. -/
theorem interior_lines_width_witness :
    (∀ line ∈ sampleGraph.draw_inner, lineWidth line = INTERIOR_VIEWPOINT_WIDTH)
    ∧ ∀ line ∈ (Day.make [sampleForecast]).draw_inner,
        lineWidth line = INTERIOR_VIEWPOINT_WIDTH := by
  have h4 : fmtF32 (4 : ℚ) = natRepr 4 := by
    rw [show (4 : ℚ) = ((4 : ℕ) : ℚ) by norm_num]
    exact fmtF32_natCast 4
  have h0 : fmtF32 (0 : ℚ) = natRepr 0 := by
    rw [show (0 : ℚ) = ((0 : ℕ) : ℚ) by norm_num]
    exact fmtF32_natCast 0
  have hlw : sampleGraph.legend_width = 6 := by
    rw [Graph.legend_width]
    rw [show sampleGraph.max_swell_height = (4 : ℚ) from rfl,
      show sampleGraph.min_swell_height = (0 : ℚ) from rfl, h4, h0]
    decide
  constructor
  · refine (interior_lines_width sampleGraph [sampleForecast]).1
      (by simp [sampleGraph]) ?_
    rw [hlw]
    simp [sampleGraph, INTERIOR_VIEWPOINT_WIDTH, VIEWPOINT_WIDTH]
  · refine (interior_lines_width sampleGraph [sampleForecast]).2.1 (by simp)
      (by norm_num [Day.LEGEND_WIDTH, INTERIOR_VIEWPOINT_WIDTH, VIEWPOINT_WIDTH]) ?_
    have hdir : fmtDot0 sampleForecast.wind.direction = natRepr 335 := by
      rw [show sampleForecast.wind.direction = (335 : ℚ) from rfl,
        show (335 : ℚ) = ((335 : ℕ) : ℚ) by norm_num]
      exact fmtDot0_natCast 335
    simp only [Day.cellsFit, Day.make, List.all_cons, List.all_nil, Bool.and_true]
    simp only [arrowDegStr, hdir]
    decide
